import Mathlib

/-!
Shallow embedding of the auto-enum plugin (`src/plugin/auto_enum.py`).

Python dictionaries are modelled as association lists in insertion order
(`AList`): deletion removes the pair, assignment to an existing key updates
the value in place, assignment to a fresh key appends at the end.  This
mirrors CPython's ordered-dict semantics, which `FunctionMap.expand_enum`
relies on when it mutates the enum dictionary while iterating over a
snapshot of its items.
-/

set_option autoImplicit false

namespace AutoEnum

/-- Association list standing for a Python `dict` with `String` keys. -/
abbrev AList (β : Type) := List (String × β)

/-- Python `dict` values of an enum dictionary (`label -> integer value`). -/
abbrev PyDict := AList Int

/-- Python `del d[k]`: remove the pair with key `k` (keys are unique in a real
dict, so at most one pair is removed). -/
def dictDel {β : Type} (d : AList β) (k : String) : AList β :=
  d.filter (fun p => p.1 ≠ k)

/-- Python `d[k] = v`: update the value in place when the key is present,
otherwise append the new pair at the end (insertion order). -/
def dictSet {β : Type} (d : AList β) (k : String) (v : β) : AList β :=
  if d.any (fun p => p.1 = k) then
    d.map (fun p => if p.1 = k then (k, v) else p)
  else
    d ++ [(k, v)]

/-- Python `d[k]` as a partial lookup (`None` models a `KeyError`). -/
def dictGet {β : Type} (d : AList β) (k : String) : Option β :=
  (d.find? (fun p => p.1 = k)).map Prod.snd

/-- Keys of a dictionary, in insertion order. -/
def keysOf {β : Type} (d : AList β) : List String :=
  d.map Prod.fst

/-- Python `string.digits`. -/
def string_digits : String := "0123456789"

/-- Membership in the character class `[0-9]` of the source regexes (equally,
membership in `string.digits`). -/
def isDig (c : Char) : Bool := string_digits.data.contains c

/-- Source `all_digits(val)`: `all(x in string.digits for x in val)`.
Note that it is `True` on the empty string. -/
def all_digits (val : String) : Bool := val.data.all (fun x => isDig x)

/-- Source lines 198-199: `re.sub(r"_[0-9]+$", "", enum_id)` guarded by
`re.search(r"_[0-9]+$", enum_id)` — remove one trailing group of an
underscore followed by one or more digits, if the identifier ends in one;
otherwise return the identifier unchanged. -/
def strip_id_suffix (s : String) : String :=
  if s.data.reverse.takeWhile isDig ≠ [] ∧
      (s.data.reverse.dropWhile isDig).head? = some ('_') then
    String.mk (s.data.reverse.dropWhile isDig).tail.reverse
  else s

/-- Renaming applied by the non-numeric branch of `expand_enum` to one label:
label `"0"` becomes `"NULL"`, any other label `k` becomes `fam ++ "_" ++ k`
where `fam` is the suffix-stripped identifier. -/
def relabel (fam : String) (k : String) : String :=
  if k = "0" then "NULL" else fam ++ "_" ++ k

/-- Renaming of one dictionary entry by the non-numeric branch. -/
def relabelPair (fam : String) (kv : String × Int) : String × Int :=
  (relabel fam kv.1, kv.2)

/-- Loop of the non-numeric branch of `expand_enum` (source lines 200-205):
iterate over the snapshot `items`, and for each pair delete the original key
from the dictionary and insert the renamed key with the snapshot value. -/
def expand_go (fam : String) : PyDict → List (String × Int) → PyDict
  | acc, [] => acc
  | acc, kv :: rest =>
      expand_go fam (dictSet (dictDel acc kv.1) (relabel fam kv.1) kv.2) rest

/-- Loop of the numeric branch of `expand_enum` (source lines 208-211):
only a pair whose key is literally `"0"` is deleted and re-inserted under the
key `"NULL"` with its snapshot value. -/
def num_go : PyDict → List (String × Int) → PyDict
  | acc, [] => acc
  | acc, kv :: rest =>
      num_go (if kv.1 = "0" then dictSet (dictDel acc kv.1) ("NULL") kv.2 else acc) rest

/-- Source `FunctionMap.expand_enum(enum, enum_id)` (lines 195-212): snapshot
`items = list(enum.items())`, then either the prefixing loop (non-numeric
identifier, with the identifier first stripped of a trailing
underscore-plus-digits suffix) or the `"0"`-to-`NULL` loop (numeric
identifier). -/
def expand_enum (enum : PyDict) (enum_id : String) : PyDict :=
  if !(all_digits enum_id) then
    expand_go (strip_id_suffix enum_id) enum enum
  else
    num_go enum enum

/-- One `ArgumentSpec` of the per-function database (source class `Argument`):
an argument name and an optional associated enum identifier. -/
structure Argument where
  name : String
  enum : Option String
deriving DecidableEq

/-- One `FunctionSignature` of the per-function database (source class
`Function`): a name and the ordered argument list parsed from the
per-function JSON document. -/
structure Function where
  name : String
  arguments : List Argument
deriving DecidableEq

/-- Source class `FunctionMap`: `enums` is the parsed `enums.json` document
(enum identifier to enum dictionary) and `functions` stands for the directory
of per-function JSON documents (`<name>.json` exists exactly when the name is
a key here). -/
structure FunctionMap where
  enums : AList PyDict
  functions : AList Function
deriving DecidableEq

/-- Source `funcname in func_map` (`FunctionMap.__contains__`): existence of
the per-function database file. -/
def fmContains (fm : FunctionMap) (funcname : String) : Bool :=
  (fm.functions.find? (fun p => p.1 = funcname)).isSome

/-- Source `FunctionMap.get_enum(name)` (lines 214-216): look the dictionary
up in `self.enums` (`none` models the `KeyError` raised on a missing
identifier) and expand it in place; the stored dictionary itself is mutated,
which the returned updated `FunctionMap` reflects. -/
def FunctionMap.get_enum (fm : FunctionMap) (name : String) :
    Option (PyDict × FunctionMap) :=
  match fm.enums.find? (fun p => p.1 = name) with
  | none => none
  | some pe =>
      let e2 := expand_enum pe.2 name
      some (e2, { fm with enums := dictSet fm.enums name e2 })

/-- Host type database, restricted to what the plugin touches: the enum types
registered via `idc.add_enum` / `idc.add_enum_member`, by display name and
with their member list. -/
structure TypeDB where
  enums : AList PyDict
deriving DecidableEq

/-- Process state seen by `get_or_add_enum`: the host type database, the
`FunctionMap` (whose enum dictionaries `get_enum` mutates), and the
`functools.lru_cache` of `get_or_add_enum` (which caches successful results
only, keyed by the enum identifier for the session's `FunctionMap`). -/
structure Session where
  db : TypeDB
  fm : FunctionMap
  cache : AList String
deriving DecidableEq

/-- Source `get_or_add_enum(funcmap, enum_id)` (lines 263-273) including its
`lru_cache` behaviour.  The result pairs the updated state with either the
display name or the propagated `KeyError` message from
`FunctionMap.get_enum`.  Note the source calls `idc.add_enum` (creating the
empty enum type) before the `funcmap.get_enum` lookup, so on a lookup error
the empty type remains in the host database and the cache is not filled. -/
def get_or_add_enum (s : Session) (enum_id : String) :
    Session × Except String String :=
  match s.cache.find? (fun p => p.1 = enum_id) with
  | some hit => (s, Except.ok hit.2)
  | none =>
      if s.db.enums.any (fun p => p.1 = "ENUM_" ++ enum_id) then
        ({ s with cache := s.cache ++ [(enum_id, "ENUM_" ++ enum_id)] },
         Except.ok ("ENUM_" ++ enum_id))
      else
        match s.fm.get_enum enum_id with
        | none =>
            ({ s with db := ⟨s.db.enums ++ [("ENUM_" ++ enum_id, [])]⟩ },
             Except.error ("KeyError: " ++ enum_id))
        | some efm =>
            ({ db := ⟨dictSet (s.db.enums ++ [("ENUM_" ++ enum_id, [])])
                 ("ENUM_" ++ enum_id) efm.1⟩,
               fm := efm.2,
               cache := s.cache ++ [(enum_id, "ENUM_" ++ enum_id)] },
             Except.ok ("ENUM_" ++ enum_id))

/-- Observations the pipeline makes of an IDA `tinfo_t` parameter type:
`is_ptr`, `get_type_name` (possibly absent), `is_integral`, `is_enum`. -/
structure Ty where
  is_ptr : Bool
  type_name : Option String
  is_integral : Bool
  is_enum : Bool
deriving DecidableEq

/-- The named boolean macro type fetched once in `main`
(`BOOL.get_named_type(..., "MACRO_BOOL")`). -/
def MACRO_BOOL : Ty :=
  { is_ptr := false, type_name := some ("MACRO_BOOL"), is_integral := true, is_enum := false }

/-- The named enum type fetched after registration
(`enum_type.get_named_type(..., enum_name)`). -/
def enumTinfo (enum_name : String) : Ty :=
  { is_ptr := false, type_name := some enum_name, is_integral := true, is_enum := true }

/-- One parameter of a resolved function signature (an element of IDA's
`func_type_data_t`): its name and its type. -/
structure FArg where
  name : String
  type : Ty
deriving DecidableEq

/-- Python `str.lower()` on one character (the type names compared against
`"bool"` are ASCII, so ASCII lowering is the behaviour exercised). -/
def py_lower_char (c : Char) : Char :=
  if ('A') ≤ c ∧ c ≤ ('Z') then Char.ofNat (c.toNat + 32) else c

/-- Python `type_name.lower()`. -/
def py_lower (s : String) : String := String.mk (s.data.map py_lower_char)

/-- Body of the per-parameter loop of `main` (lines 339-354) for a single
parameter: skip pointers, retype case-insensitive `bool` parameters to
`MACRO_BOOL`, and retype matching integral non-enum parameters of known
functions to the registered enum.  Returns the updated session and either
the (possibly retyped) parameter with its own modified flag, or the
propagated lookup error. -/
def arg_step (s : Session) (in_map : Bool) (fname : String) (arg : FArg) :
    Session × Except String (FArg × Bool) :=
  if arg.type.is_ptr then
    (s, Except.ok (arg, false))
  else if (match arg.type.type_name with
           | some tn => py_lower tn = "bool"
           | none => false : Bool) then
    (s, Except.ok ({ arg with type := MACRO_BOOL }, true))
  else if in_map && arg.type.is_integral && !arg.type.is_enum then
    match s.fm.functions.find? (fun p => p.1 = fname) with
    | none => (s, Except.error ("KeyError: " ++ fname))
    | some fp =>
        match (fp.2.arguments.filter (fun a => a.name = arg.name)).head? with
        | none => (s, Except.ok (arg, false))
        | some a0 =>
            match a0.enum with
            | none => (s, Except.ok (arg, false))
            | some eid =>
                match get_or_add_enum s eid with
                | (s1, Except.error e) => (s1, Except.error e)
                | (s1, Except.ok enum_name) =>
                    (s1, Except.ok ({ arg with type := enumTinfo enum_name }, true))
  else
    (s, Except.ok (arg, false))

/-- The per-parameter loop of `main` over the whole `funcdata` vector,
threading the session, the processed parameters (`done`), and the `changed`
flag; an error aborts the loop with the remaining parameters untouched. -/
def args_go (in_map : Bool) (fname : String) :
    Session → List FArg → List FArg → Bool →
    Session × List FArg × Bool × Option String
  | s, [], done, changed => (s, done, changed, none)
  | s, arg :: rest, done, changed =>
      match arg_step s in_map fname arg with
      | (s1, Except.error e) => (s1, done ++ arg :: rest, changed, some e)
      | (s1, Except.ok p) => args_go in_map fname s1 rest (done ++ [p.1]) (changed || p.2)

/-- State threaded through the `main` loop: the registration session, the
mutable `library_addr` name-to-address mapping, and the list of
`ida_typeinf.apply_tinfo` commits performed so far (address, pointer-shape
flag, and final parameter list). -/
structure St where
  session : Session
  library_addr : AList Nat
  committed : List (Nat × Bool × List FArg)
deriving DecidableEq

/-- Python `name[:-1]`: the name with its trailing character removed (the
empty string is unchanged). -/
def py_drop_last (s : String) : String :=
  String.mk (s.data.take (s.data.length - 1))

/-- Remainder of one `main` loop iteration after the name-normalization step
(lines 335-364): compute `in_map`, skip the function when the host returned
no type information or an empty parameter vector, run the per-parameter
loop, and commit the rebuilt function type only when some parameter was
modified. -/
def processBody (st : St) (nm : String) (addr : Nat)
    (fi : Option (Bool × List FArg)) : St × Option String :=
  let in_map := fmContains st.session.fm nm
  match fi with
  | none => (st, none)
  | some pargs =>
      if pargs.2.isEmpty then (st, none)
      else
        match args_go in_map nm st.session pargs.2 [] false with
        | (s1, _, _, some e) => ({ st with session := s1 }, some e)
        | (s1, args1, changed, none) =>
            if changed then
              ({ session := s1, library_addr := st.library_addr,
                 committed := st.committed ++ [(addr, pargs.1, args1)] }, none)
            else
              ({ st with session := s1 }, none)

/-- One iteration of the `main` loop (lines 330-364) for the snapshot entry
`(nm, addr)`: query `get_funcinfo`, apply the one-character name-stripping
alias step (which re-points `library_addr` and renames the function for the
rest of the iteration), then run the remainder of the body. -/
def processOne (funcinfo : Nat → Option (Bool × List FArg)) (st : St)
    (nm : String) (addr : Nat) : St × Option String :=
  let fi := funcinfo addr
  let stripped := py_drop_last nm
  if fmContains st.session.fm stripped then
    match dictGet st.library_addr nm with
    | none => (st, some ("KeyError: " ++ nm))
    | some a0 =>
        processBody { st with library_addr := dictSet st.library_addr stripped a0 }
          stripped addr fi
  else
    processBody st nm addr fi

/-- The `main` loop over the snapshot `functions = list(library_addr.items())`;
an uncaught exception from an iteration aborts the whole pass, leaving the
state reached so far. -/
def mainLoop (funcinfo : Nat → Option (Bool × List FArg)) :
    St → List (String × Nat) → St × Option String
  | st, [] => (st, none)
  | st, na :: rest =>
      match processOne funcinfo st na.1 na.2 with
      | (st1, some e) => (st1, some e)
      | (st1, none) => mainLoop funcinfo st1 rest

/-- Python `needle in hay` on strings: contiguous substring test. -/
def hasSub (hay : List Char) (needle : List Char) : Bool :=
  match hay with
  | [] => needle.isEmpty
  | _ :: t => needle.isPrefixOf hay || hasSub t needle

/-- Substring containment on `String`, as used by
`"ELF" in idaapi.get_file_type_name()`. -/
def strContains (s sub : String) : Bool := hasSub s.data sub.data

/-- Source `main()` (lines 315-365): the platform gate (anything whose file
type name does not contain `"ELF"` is treated as `"windows"` and aborts with
the fatal message before any processing), then the loop over the import
snapshot.  The import-table walk and the pseudocode view are host glue;
the import snapshot, the per-address type information and the data files
are taken as inputs. -/
def mainRun (file_type_name : String) (imports : List (String × Nat))
    (funcinfo : Nat → Option (Bool × List FArg)) (fm : FunctionMap)
    (db : TypeDB) : St × Option String :=
  let binary_type := if strContains file_type_name ("ELF") then "linux" else "windows"
  let st0 : St :=
    { session := { db := db, fm := fm, cache := [] },
      library_addr := imports, committed := [] }
  if binary_type = "windows" then
    (st0, some ("Windows is not supported at the moment!"))
  else
    mainLoop funcinfo st0 imports

/-- Frame property of one committed function type: the host's type
information for the committed address resolves to the same pointer-shape
flag and a parameter list of the same length, and every parameter whose
original type is a pointer type is committed completely unchanged. -/
def ptrFrame (fi : Nat → Option (Bool × List FArg)) (c : Nat × Bool × List FArg) : Prop :=
  ∃ args0 : List FArg, fi c.1 = some (c.2.1, args0)
    ∧ c.2.2.length = args0.length
    ∧ ∀ (i : Nat) (h1 : i < args0.length) (h2 : i < c.2.2.length),
        (args0.get ⟨i, h1⟩).type.is_ptr = true → c.2.2.get ⟨i, h2⟩ = args0.get ⟨i, h1⟩

/-! Concrete test fixtures used by witnesses and counterexamples. -/

/-- A plain integral parameter type (for example `int`), as IDA reports it. -/
def intTy : Ty := ⟨false, none, true, false⟩

/-- A pointer parameter type. -/
def ptrTy : Ty := ⟨true, some ("LPVOID"), false, false⟩

/-- A named `BOOL` parameter type, matched case-insensitively by the
`bool` rule. -/
def boolTy : Ty := ⟨false, some ("BOOL"), true, false⟩

/-- Fixture database: function `f` references the absent enum `MISSING`,
function `g` references the present enum `E`. -/
def fmA : FunctionMap :=
  ⟨[("E", [("V", 1)])],
   [("f", ⟨"f", [⟨"x", some ("MISSING")⟩]⟩),
    ("g", ⟨"g", [⟨"x", some ("E")⟩]⟩)]⟩

/-- Fixture type information: addresses 1 and 2 resolve to a direct function
with one integral parameter named `x`. -/
def fiA : Nat → Option (Bool × List FArg) := fun a =>
  if a = 1 then some (false, [⟨"x", intTy⟩])
  else if a = 2 then some (false, [⟨"x", intTy⟩])
  else none

/-- Fixture pipeline state with imports `f` at address 1 and `g` at 2. -/
def stA : St := ⟨⟨⟨[]⟩, fmA, []⟩, [("f", 1), ("g", 2)], []⟩

/-- Fixture database containing both `ab` and its one-character-stripped
form `a`, with different associated enums. -/
def fmB : FunctionMap :=
  ⟨[("E1", [("V", 1)]), ("E2", [("W", 2)])],
   [("ab", ⟨"ab", [⟨"x", some ("E1")⟩]⟩),
    ("a", ⟨"a", [⟨"x", some ("E2")⟩]⟩)]⟩

/-- Fixture type information: address 7 resolves to a direct function with
one integral parameter named `x`. -/
def fiB : Nat → Option (Bool × List FArg) := fun a =>
  if a = 7 then some (false, [⟨"x", intTy⟩]) else none

/-- Fixture pipeline state over `fmB`. -/
def stB : St := ⟨⟨⟨[]⟩, fmB, []⟩, [("abc", 7), ("ab", 7)], []⟩

/-- Fixture database containing `ab` but not `a`. -/
def fmD : FunctionMap :=
  ⟨[("E1", [("V", 1)])], [("ab", ⟨"ab", [⟨"x", some ("E1")⟩]⟩)]⟩

/-- Fixture pipeline state over `fmD`. -/
def stD : St := ⟨⟨⟨[]⟩, fmD, []⟩, [("abc", 7)], []⟩

/-- Fixture type information: address 5 resolves to a direct function with a
pointer parameter followed by a `BOOL` parameter. -/
def fiC : Nat → Option (Bool × List FArg) := fun a =>
  if a = 5 then some (false, [⟨"p", ptrTy⟩, ⟨"b", boolTy⟩]) else none

/-! Helper lemmas about the dictionary operations. -/

theorem data_append (s t : String) : (s ++ t).data = s.data ++ t.data := rfl

theorem mem_keysOf {β : Type} {d : AList β} {k : String} :
    k ∈ keysOf d ↔ ∃ p ∈ d, p.1 = k := by
  simp [keysOf]

theorem fst_mem_keysOf {β : Type} {d : AList β} {p : String × β} (hp : p ∈ d) :
    p.1 ∈ keysOf d :=
  List.mem_map.mpr ⟨p, hp, rfl⟩

theorem dictDel_eq_self {β : Type} {d : AList β} {k : String}
    (h : ∀ p ∈ d, p.1 ≠ k) : dictDel d k = d := by
  unfold dictDel
  rw [List.filter_eq_self]
  intro a ha
  simpa using h a ha

theorem dictDel_cons_self {β : Type} (k : String) (v : β) (L : AList β)
    (h : ∀ p ∈ L, p.1 ≠ k) : dictDel ((k, v) :: L) k = L := by
  unfold dictDel
  simp only [List.filter_cons]
  rw [if_neg (by simp)]
  rw [List.filter_eq_self]
  intro a ha
  simpa using h a ha

theorem dictSet_append {β : Type} (L : AList β) (k : String) (v : β)
    (h : ∀ p ∈ L, p.1 ≠ k) : dictSet L k v = L ++ [(k, v)] := by
  unfold dictSet
  have hany : ¬ (L.any (fun p => p.1 = k) = true) := by
    rw [List.any_eq_true]
    rintro ⟨p, hp, hpk⟩
    exact h p hp (by simpa using hpk)
  rw [if_neg hany]

theorem mem_keys_dictDel {β : Type} {d : AList β} {k k' : String}
    (h : k' ∈ keysOf (dictDel d k)) : k' ∈ keysOf d := by
  simp only [keysOf, dictDel, List.mem_map] at h ⊢
  rcases h with ⟨p, hp, hpk⟩
  exact ⟨p, List.mem_of_mem_filter hp, hpk⟩

theorem not_mem_keys_dictDel {β : Type} (d : AList β) (k : String) :
    k ∉ keysOf (dictDel d k) := by
  intro h
  simp only [keysOf, dictDel, List.mem_map] at h
  rcases h with ⟨p, hp, hpk⟩
  have hf := List.of_mem_filter hp
  simp only [decide_eq_true_eq] at hf
  exact hf hpk

theorem mem_keys_dictSet {β : Type} {d : AList β} {k k' : String} {v : β}
    (h : k' ∈ keysOf (dictSet d k v)) : k' = k ∨ k' ∈ keysOf d := by
  unfold dictSet at h
  by_cases hany : d.any (fun p => p.1 = k) = true
  · rw [if_pos hany] at h
    simp only [keysOf, List.map_map, List.mem_map, Function.comp] at h
    rcases h with ⟨p, hp, hpk⟩
    by_cases hpk1 : p.1 = k
    · rw [if_pos hpk1] at hpk
      exact Or.inl hpk.symm
    · rw [if_neg hpk1] at hpk
      exact Or.inr (mem_keysOf.mpr ⟨p, hp, hpk⟩)
  · rw [if_neg hany] at h
    simp only [keysOf, List.map_append, List.mem_append] at h
    rcases h with h | h
    · exact Or.inr h
    · simp at h
      exact Or.inl h

theorem self_mem_keys_dictSet {β : Type} (d : AList β) (k : String) (v : β) :
    k ∈ keysOf (dictSet d k v) := by
  unfold dictSet
  by_cases hany : d.any (fun p => p.1 = k) = true
  · rw [if_pos hany]
    rcases List.any_eq_true.mp hany with ⟨p, hp, hpk⟩
    have hpk1 : p.1 = k := by simpa using hpk
    simp only [keysOf, List.map_map, List.mem_map, Function.comp]
    exact ⟨p, hp, by rw [if_pos hpk1]⟩
  · rw [if_neg hany]
    simp [keysOf]

/-! Helper lemmas about the relabelling of the non-numeric branch. -/

theorem null_ne_concat (fam k : String) : ("NULL" : String) ≠ fam ++ "_" ++ k := by
  intro h
  have hm : ('_') ∈ (fam ++ "_" ++ k).data := by
    show ('_') ∈ (fam.data ++ [('_')]) ++ k.data
    simp
  rw [← h] at hm
  exact absurd hm (by decide)

theorem concat_inj {fam k1 k2 : String}
    (h : fam ++ "_" ++ k1 = fam ++ "_" ++ k2) : k1 = k2 := by
  have hd : fam.data ++ ('_') :: k1.data = fam.data ++ ('_') :: k2.data := by
    have := congrArg String.data h
    simpa [data_append] using this
  have h2 := List.append_cancel_left hd
  injection h2 with _ h3
  exact String.ext h3

theorem relabel_inj (fam : String) {k1 k2 : String}
    (h : relabel fam k1 = relabel fam k2) : k1 = k2 := by
  by_cases h1 : k1 = "0"
  · by_cases h2 : k2 = "0"
    · rw [h1, h2]
    · rw [relabel, if_pos h1, relabel, if_neg h2] at h
      exact absurd h (null_ne_concat fam k2)
  · by_cases h2 : k2 = "0"
    · rw [relabel, if_neg h1, relabel, if_pos h2] at h
      exact absurd h.symm (null_ne_concat fam k1)
    · rw [relabel, if_neg h1, relabel, if_neg h2] at h
      exact concat_inj h

/-! Correctness of the non-numeric branch in the absence of key collisions. -/

theorem expand_go_spec (fam : String) (items : List (String × Int)) :
    ∀ doneL : List (String × Int),
      (keysOf (doneL ++ items)).Nodup →
      (∀ k1 ∈ keysOf (doneL ++ items), ∀ k2 ∈ keysOf (doneL ++ items),
        relabel fam k1 ≠ k2) →
      expand_go fam (items ++ doneL.map (relabelPair fam)) items
        = (doneL ++ items).map (relabelPair fam) := by
  induction items with
  | nil =>
      intro doneL hnd hcol
      simp [expand_go]
  | cons kv rest ih =>
      intro doneL hnd hcol
      obtain ⟨k, v⟩ := kv
      have hnd' : (keysOf doneL ++ k :: keysOf rest).Nodup := by
        simpa [keysOf] using hnd
      rcases List.nodup_append.mp hnd' with ⟨hndD, hndKR, hdisj⟩
      rcases List.nodup_cons.mp hndKR with ⟨hkR, hndR⟩
      have hkD : k ∉ keysOf doneL := fun hk =>
        hdisj hk (List.mem_cons_self _ _)
      have hmemk : k ∈ keysOf (doneL ++ (k, v) :: rest) := by
        simp [keysOf]
      have hmemD : ∀ k' ∈ keysOf doneL, k' ∈ keysOf (doneL ++ (k, v) :: rest) := by
        intro k' h
        simp only [keysOf, List.map_append, List.mem_append] at h ⊢
        exact Or.inl h
      have hmemR : ∀ k' ∈ keysOf rest, k' ∈ keysOf (doneL ++ (k, v) :: rest) := by
        intro k' h
        simp only [keysOf, List.map_append, List.map_cons, List.mem_append,
          List.mem_cons] at h ⊢
        exact Or.inr (Or.inr h)
      have step1 : dictDel ((k, v) :: (rest ++ doneL.map (relabelPair fam))) k
          = rest ++ doneL.map (relabelPair fam) := by
        apply dictDel_cons_self
        intro p hp
        rcases List.mem_append.mp hp with hp | hp
        · intro hpe
          exact hkR (hpe ▸ fst_mem_keysOf hp)
        · rcases List.mem_map.mp hp with ⟨q, hq, rfl⟩
          exact hcol q.1 (hmemD q.1 (fst_mem_keysOf hq)) k hmemk
      have step2 : dictSet (rest ++ doneL.map (relabelPair fam)) (relabel fam k) v
          = (rest ++ doneL.map (relabelPair fam)) ++ [(relabel fam k, v)] := by
        apply dictSet_append
        intro p hp
        rcases List.mem_append.mp hp with hp | hp
        · have hp1 : p.1 ∈ keysOf (doneL ++ (k, v) :: rest) :=
            hmemR p.1 (fst_mem_keysOf hp)
          exact fun hpe => hcol k hmemk p.1 hp1 hpe.symm
        · rcases List.mem_map.mp hp with ⟨q, hq, rfl⟩
          intro hpe
          have hqk : q.1 = k := relabel_inj fam hpe
          exact hkD (hqk ▸ fst_mem_keysOf hq)
      have hrw : (doneL ++ [(k, v)]) ++ rest = doneL ++ (k, v) :: rest := by
        simp
      calc expand_go fam (((k, v) :: rest) ++ doneL.map (relabelPair fam)) ((k, v) :: rest)
          = expand_go fam
              (dictSet (dictDel ((k, v) :: (rest ++ doneL.map (relabelPair fam))) k)
                (relabel fam k) v) rest := by
            simp only [expand_go, List.cons_append]
        _ = expand_go fam
              (rest ++ (doneL ++ [(k, v)]).map (relabelPair fam)) rest := by
            rw [step1, step2]
            simp [relabelPair]
        _ = ((doneL ++ [(k, v)]) ++ rest).map (relabelPair fam) := by
            apply ih
            · rw [hrw]; exact hnd
            · rw [hrw]; exact hcol
        _ = (doneL ++ (k, v) :: rest).map (relabelPair fam) := by rw [hrw]

/-! Characterization of the trailing-suffix strip. -/

theorem takeWhile_append_of_all {α : Type} {p : α → Bool} {l1 l2 : List α}
    (h : ∀ x ∈ l1, p x = true) :
    (l1 ++ l2).takeWhile p = l1 ++ l2.takeWhile p := by
  induction l1 with
  | nil => simp
  | cons a t ih =>
      have ha := h a (List.mem_cons_self a t)
      simp only [List.cons_append, List.takeWhile_cons, ha, if_true]
      rw [ih (fun x hx => h x (List.mem_cons_of_mem a hx))]

theorem dropWhile_append_of_all {α : Type} {p : α → Bool} {l1 l2 : List α}
    (h : ∀ x ∈ l1, p x = true) :
    (l1 ++ l2).dropWhile p = l2.dropWhile p := by
  induction l1 with
  | nil => simp
  | cons a t ih =>
      have ha := h a (List.mem_cons_self a t)
      simp only [List.cons_append, List.dropWhile_cons, ha, if_true]
      exact ih (fun x hx => h x (List.mem_cons_of_mem a hx))

theorem strip_concat (t ds : String) (hne : ds.data ≠ [])
    (hdig : all_digits ds = true) : strip_id_suffix (t ++ "_" ++ ds) = t := by
  have hrev : (t ++ "_" ++ ds).data.reverse
      = ds.data.reverse ++ ('_') :: t.data.reverse := by
    show ((t.data ++ [('_')]) ++ ds.data).reverse
        = ds.data.reverse ++ ('_') :: t.data.reverse
    simp
  have hall : ∀ x ∈ ds.data.reverse, isDig x = true := by
    intro x hx
    exact List.all_eq_true.mp hdig x (List.mem_reverse.mp hx)
  have hdu : isDig ('_') = false := by decide
  have htw : (t ++ "_" ++ ds).data.reverse.takeWhile isDig = ds.data.reverse := by
    rw [hrev, takeWhile_append_of_all hall]
    simp [List.takeWhile_cons, hdu]
  have hdw : (t ++ "_" ++ ds).data.reverse.dropWhile isDig
      = ('_') :: t.data.reverse := by
    rw [hrev, dropWhile_append_of_all hall]
    simp [List.dropWhile_cons, hdu]
  rw [strip_id_suffix, if_pos]
  · rw [hdw]
    show String.mk t.data.reverse.reverse = t
    rw [List.reverse_reverse]
  · constructor
    · rw [htw]
      simpa using hne
    · rw [hdw]
      rfl

theorem strip_no_suffix (s : String)
    (h : ¬ ∃ t ds : String, ds.data ≠ [] ∧ all_digits ds = true ∧ s = t ++ "_" ++ ds) :
    strip_id_suffix s = s := by
  by_cases hc : s.data.reverse.takeWhile isDig ≠ [] ∧
      (s.data.reverse.dropWhile isDig).head? = some ('_')
  · exfalso
    obtain ⟨hne, hhd⟩ := hc
    set ds0 := s.data.reverse.takeWhile isDig with hds0
    have hdigs : ∀ x ∈ ds0, isDig x = true := by
      intro x hx
      exact List.mem_takeWhile_imp hx
    rcases hrest : s.data.reverse.dropWhile isDig with _ | ⟨c, tl⟩
    · rw [hrest] at hhd
      simp at hhd
    · rw [hrest] at hhd
      have hcu : c = ('_') := by simpa using hhd
      subst hcu
      have hsplit : s.data.reverse = ds0 ++ ('_') :: tl := by
        conv_lhs => rw [← List.takeWhile_append_dropWhile isDig s.data.reverse]
        rw [hrest]
      have hdata : s.data = tl.reverse ++ ('_') :: ds0.reverse := by
        have h2 := congrArg List.reverse hsplit
        rw [List.reverse_reverse] at h2
        rw [h2]
        simp
      apply h
      refine ⟨String.mk tl.reverse, String.mk ds0.reverse, ?_, ?_, ?_⟩
      · show ds0.reverse ≠ []
        simpa using hne
      · show ds0.reverse.all (fun x => isDig x) = true
        rw [List.all_eq_true]
        intro x hx
        exact hdigs x (List.mem_reverse.mp hx)
      · apply String.ext
        show s.data = (tl.reverse ++ [('_')]) ++ ds0.reverse
        rw [hdata, List.append_assoc]
        rfl
  · rw [strip_id_suffix, if_neg hc]

/-! Helper lemmas about the numeric branch. -/

theorem num_go_no_zero : ∀ (items : List (String × Int)) (acc : PyDict),
    (∀ p ∈ items, p.1 ≠ "0") → num_go acc items = acc
  | [], _, _ => rfl
  | kv :: rest, acc, h => by
      simp only [num_go]
      rw [if_neg (h kv (List.mem_cons_self kv rest))]
      exact num_go_no_zero rest acc (fun p hp => h p (List.mem_cons_of_mem kv hp))

theorem num_go_append_skip :
    ∀ (l1 l2 : List (String × Int)) (acc : PyDict),
    (∀ p ∈ l1, p.1 ≠ "0") → num_go acc (l1 ++ l2) = num_go acc l2
  | [], _, _, _ => rfl
  | kv :: t, l2, acc, h => by
      simp only [List.cons_append, num_go]
      rw [if_neg (h kv (List.mem_cons_self kv t))]
      exact num_go_append_skip t l2 acc (fun p hp => h p (List.mem_cons_of_mem kv hp))

theorem keys_num_go : ∀ (items : List (String × Int)) (acc : PyDict) (k : String),
    k ∈ keysOf (num_go acc items) → k = "NULL" ∨ k ∈ keysOf acc := by
  intro items
  induction items with
  | nil =>
      intro acc k h
      exact Or.inr h
  | cons kv rest ih =>
      intro acc k h
      simp only [num_go] at h
      rcases ih _ k h with h1 | h1
      · exact Or.inl h1
      · by_cases h0 : kv.1 = "0"
        · rw [if_pos h0] at h1
          rcases mem_keys_dictSet h1 with h2 | h2
          · exact Or.inl h2
          · exact Or.inr (mem_keys_dictDel h2)
        · rw [if_neg h0] at h1
          exact Or.inr h1

theorem zero_not_mem_num_go : ∀ (items : List (String × Int)) (acc : PyDict),
    (("0" : String) ∈ keysOf items ∨ ("0" : String) ∉ keysOf acc) →
    ("0" : String) ∉ keysOf (num_go acc items) := by
  intro items
  induction items with
  | nil =>
      intro acc h
      rcases h with h | h
      · simp [keysOf] at h
      · exact h
  | cons kv rest ih =>
      intro acc h
      simp only [num_go]
      by_cases h0 : kv.1 = "0"
      · rw [if_pos h0]
        apply ih
        right
        intro hmem
        rcases mem_keys_dictSet hmem with h2 | h2
        · exact absurd h2 (by decide)
        · exact not_mem_keys_dictDel acc "0" (h0 ▸ h2)
      · rw [if_neg h0]
        apply ih
        rcases h with h | h
        · left
          have : ("0" : String) = kv.1 ∨ ("0" : String) ∈ keysOf rest := by
            simpa [keysOf] using h
          rcases this with hh | hh
          · exact absurd hh.symm h0
          · exact hh
        · exact Or.inr h

theorem null_mem_num_go : ∀ (items : List (String × Int)) (acc : PyDict),
    (("NULL" : String) ∈ keysOf acc ∨ ("0" : String) ∈ keysOf items) →
    ("NULL" : String) ∈ keysOf (num_go acc items) := by
  intro items
  induction items with
  | nil =>
      intro acc h
      rcases h with h | h
      · exact h
      · simp [keysOf] at h
  | cons kv rest ih =>
      intro acc h
      simp only [num_go]
      by_cases h0 : kv.1 = "0"
      · rw [if_pos h0]
        exact ih _ (Or.inl (self_mem_keys_dictSet _ _ _))
      · rw [if_neg h0]
        apply ih
        rcases h with h | h
        · exact Or.inl h
        · right
          have : ("0" : String) = kv.1 ∨ ("0" : String) ∈ keysOf rest := by
            simpa [keysOf] using h
          rcases this with hh | hh
          · exact absurd hh.symm h0
          · exact hh

/-! Claims C1, C2, C9, C10: behaviour of `expand_enum`. -/

/-- Claim C1 (amended): for an enum dictionary with pairwise-distinct keys
none of whose renamed labels collides with an existing label, and a
non-numeric identifier, `expand_enum` maps every entry `(L, v)` to
`(relabel fam L, v)` where `fam` is the suffix-stripped identifier — label
`"0"` becomes `"NULL"` and every other label `L` becomes `fam ++ "_" ++ L`,
values preserved.  Moreover the strip removes exactly one trailing
underscore-plus-digits group and is the identity when the identifier has no
such trailing group (digits elsewhere do not trigger stripping). -/
theorem C1_nonnumeric_expand :
    (∀ (d : PyDict) (enum_id : String),
      all_digits enum_id = false →
      (keysOf d).Nodup →
      (∀ k1 ∈ keysOf d, ∀ k2 ∈ keysOf d,
        relabel (strip_id_suffix enum_id) k1 ≠ k2) →
      expand_enum d enum_id = d.map (relabelPair (strip_id_suffix enum_id)))
    ∧ (∀ t ds : String, ds.data ≠ [] → all_digits ds = true →
        strip_id_suffix (t ++ "_" ++ ds) = t)
    ∧ (∀ s : String,
        (¬ ∃ t ds : String, ds.data ≠ [] ∧ all_digits ds = true ∧
          s = t ++ "_" ++ ds) →
        strip_id_suffix s = s) := by
  refine ⟨?_, strip_concat, strip_no_suffix⟩
  intro d enum_id hid hnd hcol
  have he : expand_enum d enum_id = expand_go (strip_id_suffix enum_id) d d := by
    rw [expand_enum, hid]
    rfl
  rw [he]
  have hs := expand_go_spec (strip_id_suffix enum_id) d []
    (by simpa using hnd) (by simpa using hcol)
  simpa using hs

/-- Witness for C1 at concrete inputs: the family example from the spec, the
suffix strip on a concrete identifier, and the no-op strip on an identifier
whose digit is not part of a trailing underscore-digits suffix. -/
theorem C1_nonnumeric_expand_wit :
    expand_enum [(("0" : String), (7 : Int)), ("RED", 1)] ("COLOR_3")
        = [("NULL", 7), ("COLOR_RED", 1)]
    ∧ strip_id_suffix ("COLOR" ++ "_" ++ "3") = "COLOR"
    ∧ strip_id_suffix ("COL0R") = "COL0R" := by
  refine ⟨?_, ?_, ?_⟩
  · have h := C1_nonnumeric_expand.1 [("0", 7), ("RED", 1)] ("COLOR_3")
      (by decide) (by decide) (by decide)
    rw [h]
    decide
  · exact C1_nonnumeric_expand.2.1 ("COLOR") ("3") (by decide) (by decide)
  · refine C1_nonnumeric_expand.2.2 ("COL0R") ?_
    rintro ⟨t, ds, _, _, heq⟩
    have hm : ('_') ∈ (t ++ "_" ++ ds).data := by
      show ('_') ∈ (t.data ++ [('_')]) ++ ds.data
      simp
    rw [← heq] at hm
    exact absurd hm (by decide)

/-- Counterexample to C1 as stated: with the dictionary
`{"A": 1, "P_A": 2}` and identifier `"P"`, the claim demands that label
`"A"` end up as `"P_A"` with value `1`, but the in-place rewrite first
overwrites the still-unprocessed key `"P_A"` and then deletes it, so the
value `1` is lost entirely (the result is `{"P_P_A": 2}`). -/
theorem C1_nonnumeric_expand_cex :
    ¬ (∀ (k : String) (v : Int),
        dictGet [(("A" : String), (1 : Int)), ("P_A", 2)] k = some v →
        k ≠ "0" →
        dictGet (expand_enum [(("A" : String), (1 : Int)), ("P_A", 2)] ("P"))
          ("P" ++ "_" ++ k) = some v) := by
  intro h
  exact absurd (h ("A") 1 (by decide) (by decide)) (by decide)

/-- Claim C2 (amended): for an enum dictionary with pairwise-distinct keys
that does not contain both a `"0"` and a `"NULL"` label, and a numeric
identifier, `expand_enum` is the identity when no `"0"` label exists, and
otherwise deletes the `"0"` entry and appends `("NULL", v)` with its value
`v`, leaving every other entry unchanged. -/
theorem C2_numeric_expand (d : PyDict) (enum_id : String)
    (hid : all_digits enum_id = true)
    (hnd : (keysOf d).Nodup)
    (hok : ¬((("0" : String)) ∈ keysOf d ∧ (("NULL" : String)) ∈ keysOf d)) :
    ((("0" : String)) ∉ keysOf d → expand_enum d enum_id = d) ∧
    (∀ v : Int, dictGet d ("0") = some v →
      expand_enum d enum_id = dictDel d ("0") ++ [(("NULL" : String), v)]) := by
  have he : expand_enum d enum_id = num_go d d := by
    rw [expand_enum, hid]
    rfl
  constructor
  · intro h0
    rw [he]
    apply num_go_no_zero
    intro p hp hpe
    exact h0 (hpe ▸ fst_mem_keysOf hp)
  · intro v hv
    rw [dictGet] at hv
    rcases hfind : d.find? (fun p => p.1 = ("0" : String)) with _ | q
    · rw [hfind] at hv
      simp at hv
    · rw [hfind] at hv
      simp at hv
      have hqmem : q ∈ d := List.mem_of_find?_eq_some hfind
      have hq1 : q.1 = "0" := by simpa using List.find?_some hfind
      have h0mem : ("0" : String) ∈ keysOf d := hq1 ▸ fst_mem_keysOf hqmem
      have hN : ("NULL" : String) ∉ keysOf d := fun hNm => hok ⟨h0mem, hNm⟩
      obtain ⟨k0, v0⟩ := q
      simp only at hq1 hv
      subst hq1
      subst hv
      obtain ⟨l1, l2, hd⟩ := List.append_of_mem hqmem
      have hnd2 : (keysOf l1 ++ ("0" : String) :: keysOf l2).Nodup := by
        rw [hd] at hnd
        simpa [keysOf] using hnd
      rcases List.nodup_append.mp hnd2 with ⟨_, hndc, hdisj⟩
      have h0l2 : ("0" : String) ∉ keysOf l2 := (List.nodup_cons.mp hndc).1
      have h0l1 : ("0" : String) ∉ keysOf l1 := fun hx =>
        hdisj hx (List.mem_cons_self _ _)
      have hl1 : ∀ p ∈ l1, p.1 ≠ "0" := fun p hp hpe =>
        h0l1 (hpe ▸ fst_mem_keysOf hp)
      have hl2 : ∀ p ∈ l2, p.1 ≠ "0" := fun p hp hpe =>
        h0l2 (hpe ▸ fst_mem_keysOf hp)
      rw [he, hd]
      rw [num_go_append_skip l1 _ _ hl1]
      simp only [num_go]
      rw [if_pos trivial]
      rw [num_go_no_zero l2 _ hl2]
      apply dictSet_append
      intro p hp hpe
      have hpd : p ∈ l1 ++ ("0", v0) :: l2 := List.mem_of_mem_filter hp
      apply hN
      rw [hd]
      exact hpe ▸ fst_mem_keysOf hpd

/-- Witness for C2 at concrete inputs: the positional-enum example from the
spec (identifier `"42"`), and the identity case without a `"0"` label. -/
theorem C2_numeric_expand_wit :
    expand_enum [(("0" : String), (1 : Int)), ("1", 2)] ("42")
        = dictDel [(("0" : String), (1 : Int)), ("1", 2)] ("0")
            ++ [(("NULL" : String), 1)]
    ∧ expand_enum [(("A" : String), (3 : Int))] ("7") = [("A", 3)] := by
  constructor
  · exact (C2_numeric_expand [("0", 1), ("1", 2)] ("42") (by decide) (by decide)
      (by decide)).2 1 (by decide)
  · exact (C2_numeric_expand [("A", 3)] ("7") (by decide) (by decide)
      (by decide)).1 (by decide)

/-- Counterexample to C2 as stated: with the dictionary
`{"NULL": 5, "0": 1}` and the numeric identifier `"7"`, renaming `"0"` to
`"NULL"` overwrites the pre-existing `"NULL"` entry in place, so the label
`"NULL"` — which the claim requires to be left unchanged with value `5` —
ends with value `1` (the result is `{"NULL": 1}`). -/
theorem C2_numeric_expand_cex :
    ¬ (∀ (k : String) (v : Int),
        dictGet [(("NULL" : String), (5 : Int)), ("0", 1)] k = some v →
        k ≠ "0" →
        dictGet (expand_enum [(("NULL" : String), (5 : Int)), ("0", 1)] ("7")) k
          = some v) := by
  intro h
  exact absurd (h ("NULL") 5 (by decide) (by decide)) (by decide)

/-- Claim C9: `expand_enum` is not idempotent for non-numeric identifiers,
and since `get_enum` stores the expanded dictionary back, two successive
`get_enum` calls with the same identifier rename the labels twice: `"NULL"`
becomes `"COLOR_NULL"` and `"COLOR_RED"` becomes `"COLOR_COLOR_RED"`, a
different label set than after a single call. -/
theorem C9_expand_not_idempotent :
    FunctionMap.get_enum ⟨[("COLOR_3", [("0", 0), ("RED", 1)])], []⟩ ("COLOR_3")
        = some ([("NULL", 0), ("COLOR_RED", 1)],
            ⟨[("COLOR_3", [("NULL", 0), ("COLOR_RED", 1)])], []⟩)
    ∧ FunctionMap.get_enum ⟨[("COLOR_3", [("NULL", 0), ("COLOR_RED", 1)])], []⟩
        ("COLOR_3")
        = some ([("COLOR_NULL", 0), ("COLOR_COLOR_RED", 1)],
            ⟨[("COLOR_3", [("COLOR_NULL", 0), ("COLOR_COLOR_RED", 1)])], []⟩)
    ∧ keysOf [(("COLOR_NULL" : String), (0 : Int)), ("COLOR_COLOR_RED", 1)]
        ≠ keysOf [(("NULL" : String), (0 : Int)), ("COLOR_RED", 1)] := by
  refine ⟨by decide, by decide, by decide⟩

/-- Claim C10: the empty identifier is classified as numeric
(`all_digits("")` is `True`), so `expand_enum` with identifier `""` takes
the numeric branch: no label ever receives a family prefix (every key of the
result is `"NULL"` or an original key other than `"0"`), a `"0"` label is
renamed to `"NULL"` when present, and `"0"` never survives. -/
theorem C10_empty_id_numeric :
    all_digits "" = true ∧
    ∀ d : PyDict,
      (∀ k ∈ keysOf (expand_enum d ""), k = "NULL" ∨ (k ∈ keysOf d ∧ k ≠ "0")) ∧
      ((("0" : String)) ∈ keysOf d →
        (("NULL" : String)) ∈ keysOf (expand_enum d "")) ∧
      (("0" : String)) ∉ keysOf (expand_enum d "") := by
  refine ⟨by decide, ?_⟩
  intro d
  have he : expand_enum d "" = num_go d d := rfl
  refine ⟨?_, ?_, ?_⟩
  · intro k hk
    rw [he] at hk
    rcases keys_num_go d d k hk with h1 | h1
    · exact Or.inl h1
    · right
      refine ⟨h1, ?_⟩
      intro hk0
      subst hk0
      exact zero_not_mem_num_go d d (Or.inl h1) hk
  · intro h0
    rw [he]
    exact null_mem_num_go d d (Or.inr h0)
  · rw [he]
    by_cases h0 : ("0" : String) ∈ keysOf d
    · exact zero_not_mem_num_go d d (Or.inl h0)
    · exact zero_not_mem_num_go d d (Or.inr h0)

/-- Witness for C10 at a concrete dictionary with a `"0"` label. -/
theorem C10_empty_id_numeric_wit :
    (("NULL" : String)) ∈ keysOf (expand_enum [(("0" : String), (3 : Int)), ("A", 4)] "") :=
  ((C10_empty_id_numeric.2 [("0", 3), ("A", 4)]).2.1 (by decide))

/-! Claims C4 and C5: registry idempotence and the platform gate. -/

theorem find?_append_none {α : Type} {p : α → Bool} {l1 l2 : List α}
    (h : l1.find? p = none) : (l1 ++ l2).find? p = l2.find? p := by
  rw [List.find?_append, h, Option.none_or]

theorem get_or_add_enum_cache_hit (s : Session) (enum_id : String)
    (hit : String × String)
    (h : s.cache.find? (fun p => p.1 = enum_id) = some hit) :
    get_or_add_enum s enum_id = (s, Except.ok hit.2) := by
  unfold get_or_add_enum
  rw [h]

/-- Claim C4: once `get_or_add_enum` has returned a display name for an
identifier, calling it again with the same identifier returns the same
display name and leaves the state completely unchanged — no second enum
type is created and no member is re-inserted; the display name is
`ENUM_<identifier>` whenever the cache held no stale entry for it. -/
theorem C4_get_or_add_idempotent (s s1 : Session) (enum_id n : String)
    (h : get_or_add_enum s enum_id = (s1, Except.ok n)) :
    get_or_add_enum s1 enum_id = (s1, Except.ok n) ∧
    (s.cache.find? (fun p => p.1 = enum_id) = none → n = "ENUM_" ++ enum_id) := by
  unfold get_or_add_enum at h
  split at h
  next hit hc =>
    have hs : s = s1 := congrArg Prod.fst h
    have hn : (Except.ok hit.2 : Except String String) = Except.ok n :=
      congrArg Prod.snd h
    injection hn with hn
    subst hs hn
    constructor
    · exact get_or_add_enum_cache_hit s enum_id hit hc
    · intro hnone
      rw [hc] at hnone
      exact Option.noConfusion hnone
  next hc =>
    split at h
    next hdb =>
      have hs : _ = s1 := congrArg Prod.fst h
      have hn : (Except.ok ("ENUM_" ++ enum_id) : Except String String)
          = Except.ok n := congrArg Prod.snd h
      injection hn with hn
      subst hs hn
      refine ⟨?_, fun _ => rfl⟩
      apply get_or_add_enum_cache_hit _ enum_id (enum_id, "ENUM_" ++ enum_id)
      show (s.cache ++ [(enum_id, "ENUM_" ++ enum_id)]).find?
          (fun p => p.1 = enum_id) = some (enum_id, "ENUM_" ++ enum_id)
      rw [find?_append_none hc]
      exact List.find?_cons_of_pos _ (by simp)
    next hdb =>
      split at h
      next hge =>
        have hn : (Except.error ("KeyError: " ++ enum_id) : Except String String)
            = Except.ok n := congrArg Prod.snd h
        exact Except.noConfusion hn
      next efm hge =>
        have hs : _ = s1 := congrArg Prod.fst h
        have hn : (Except.ok ("ENUM_" ++ enum_id) : Except String String)
            = Except.ok n := congrArg Prod.snd h
        injection hn with hn
        subst hs hn
        refine ⟨?_, fun _ => rfl⟩
        apply get_or_add_enum_cache_hit _ enum_id (enum_id, "ENUM_" ++ enum_id)
        show (s.cache ++ [(enum_id, "ENUM_" ++ enum_id)]).find?
            (fun p => p.1 = enum_id) = some (enum_id, "ENUM_" ++ enum_id)
        rw [find?_append_none hc]
        exact List.find?_cons_of_pos _ (by simp)

/-- Witness for C4: registering the enum `E` in a fresh session and then
re-registering it returns `ENUM_E` in the identical state. -/
theorem C4_get_or_add_idempotent_wit :
    get_or_add_enum
        ⟨⟨[("ENUM_E", [("E_V", 1)])]⟩, ⟨[("E", [("E_V", 1)])], []⟩, [("E", "ENUM_E")]⟩
        ("E")
      = (⟨⟨[("ENUM_E", [("E_V", 1)])]⟩, ⟨[("E", [("E_V", 1)])], []⟩, [("E", "ENUM_E")]⟩,
          Except.ok ("ENUM_E"))
    ∧ ("ENUM_E" : String) = "ENUM_" ++ "E" := by
  have h := C4_get_or_add_idempotent ⟨⟨[]⟩, ⟨[("E", [("V", 1)])], []⟩, []⟩
    ⟨⟨[("ENUM_E", [("E_V", 1)])]⟩, ⟨[("E", [("E_V", 1)])], []⟩, [("E", "ENUM_E")]⟩
    ("E") ("ENUM_E") (by rfl)
  exact ⟨h.1, h.2 (by decide)⟩

/-- Claim C5: whenever the binary's file type name does not contain `"ELF"`,
`main` classifies the binary as `windows` and raises the fatal error with no
function processed: the loop never runs, nothing is committed, and neither
the type database nor the registry state is touched. -/
theorem C5_platform_gate (file_type_name : String) (imports : List (String × Nat))
    (funcinfo : Nat → Option (Bool × List FArg)) (fm : FunctionMap) (db : TypeDB)
    (h : strContains file_type_name ("ELF") = false) :
    mainRun file_type_name imports funcinfo fm db
      = (⟨⟨db, fm, []⟩, imports, []⟩,
         some ("Windows is not supported at the moment!")) := by
  unfold mainRun
  rw [h]
  rfl

/-- Witness for C5: a PE file type name aborts with the fatal message and an
untouched state. -/
theorem C5_platform_gate_wit :
    mainRun ("Portable executable for 80386 (PE)") [("f", 1)] (fun _ => none)
        ⟨[], []⟩ ⟨[]⟩
      = (⟨⟨⟨[]⟩, ⟨[], []⟩, []⟩, [("f", 1)], []⟩,
         some ("Windows is not supported at the moment!")) :=
  C5_platform_gate _ _ _ _ _ (by decide)

/-! Claim C3: a missing enum identifier raises an error that aborts the
whole pass, not just the current function. -/

theorem mainLoop_append_error (fi : Nat → Option (Bool × List FArg))
    (l1 : List (String × Nat)) :
    ∀ (st st1 st2 : St) (l2 : List (String × Nat)) (nm : String) (addr : Nat)
      (e : String),
    mainLoop fi st l1 = (st1, none) →
    processOne fi st1 nm addr = (st2, some e) →
    mainLoop fi st (l1 ++ (nm, addr) :: l2) = (st2, some e) := by
  induction l1 with
  | nil =>
      intro st st1 st2 l2 nm addr e h1 h2
      have h1' : ((st, none) : St × Option String) = (st1, none) := h1
      have hst : st = st1 := congrArg Prod.fst h1'
      subst hst
      show (match processOne fi st nm addr with
            | (st1, some e) => (st1, some e)
            | (st1, none) => mainLoop fi st1 l2) = (st2, some e)
      rw [h2]
  | cons x t ih =>
      intro st st1 st2 l2 nm addr e h1 h2
      simp only [mainLoop] at h1
      simp only [List.cons_append, mainLoop]
      rcases hp : processOne fi st x.1 x.2 with ⟨stx, err⟩
      rw [hp] at h1
      cases err with
      | some e' =>
          have h1' : ((stx, some e') : St × Option String) = (st1, none) := h1
          have : (some e' : Option String) = none := congrArg Prod.snd h1'
          exact Option.noConfusion this
      | none =>
          exact ih stx st1 st2 l2 nm addr e h1 h2

/-- Claim C3 (amended): a missing enum identifier makes `get_enum` fail with
a `KeyError` which `get_or_add_enum` propagates (it is not silently
skipped), and an error raised while processing one function aborts the
whole remaining pass: as soon as one loop iteration raises, `main` returns
that error and none of the later snapshot entries is processed. -/
theorem C3_lookup_error_aborts :
    (∀ (fm : FunctionMap) (enum_id : String),
      fm.enums.find? (fun p => p.1 = enum_id) = none →
      fm.get_enum enum_id = none)
    ∧ (∀ (s : Session) (enum_id : String),
      s.cache.find? (fun p => p.1 = enum_id) = none →
      s.db.enums.any (fun p => p.1 = "ENUM_" ++ enum_id) = false →
      s.fm.get_enum enum_id = none →
      (get_or_add_enum s enum_id).2 = Except.error ("KeyError: " ++ enum_id))
    ∧ (∀ (fi : Nat → Option (Bool × List FArg)) (st st1 st2 : St)
        (l1 l2 : List (String × Nat)) (nm : String) (addr : Nat) (e : String),
      mainLoop fi st l1 = (st1, none) →
      processOne fi st1 nm addr = (st2, some e) →
      mainLoop fi st (l1 ++ (nm, addr) :: l2) = (st2, some e)) := by
  refine ⟨?_, ?_, ?_⟩
  · intro fm enum_id h
    unfold FunctionMap.get_enum
    rw [h]
  · intro s enum_id h1 h2 h3
    unfold get_or_add_enum
    rw [h1, h2, h3]
    rfl
  · intro fi st st1 st2 l1 l2 nm addr e h1 h2
    exact mainLoop_append_error fi l1 st st1 st2 l2 nm addr e h1 h2

/-- Witness for C3 on the fixture: `f` references the absent enum
`MISSING`; the lookup fails, `get_or_add_enum` turns it into the
propagated `KeyError`, and the pass over `[f, g]` stops at `f` with the
empty enum type left behind in the type database. -/
theorem C3_lookup_error_aborts_wit :
    FunctionMap.get_enum fmA ("MISSING") = none
    ∧ (get_or_add_enum ⟨⟨[]⟩, fmA, []⟩ ("MISSING")).2
        = Except.error ("KeyError: " ++ "MISSING")
    ∧ mainLoop fiA stA [("f", 1), ("g", 2)]
        = (⟨⟨⟨[("ENUM_MISSING", [])]⟩, fmA, []⟩, [("f", 1), ("g", 2)], []⟩,
           some ("KeyError: MISSING")) :=
  ⟨C3_lookup_error_aborts.1 fmA ("MISSING") (by decide),
   C3_lookup_error_aborts.2.1 ⟨⟨[]⟩, fmA, []⟩ ("MISSING")
     (by decide) (by decide) (by rfl),
   C3_lookup_error_aborts.2.2 fiA stA stA
     ⟨⟨⟨[("ENUM_MISSING", [])]⟩, fmA, []⟩, [("f", 1), ("g", 2)], []⟩
     [] [("g", 2)] ("f") 1 ("KeyError: MISSING") (by rfl) (by rfl)⟩

/-- Counterexample to C3 as stated: the claim says the lookup error aborts
only the single function while the pass continues over the remaining
ones, but in the run over `[f, g]` — where `f` references the absent
enum and `g` alone would be retyped — the error raised at `f` ends the
whole pass and `g` is never committed, although the run over `[g]` alone
commits it. -/
theorem C3_lookup_error_aborts_cex :
    (mainRun ("ELF64 for x86-64 (Shared object)") [("f", 1), ("g", 2)] fiA fmA ⟨[]⟩).2
        = some ("KeyError: MISSING")
    ∧ (mainRun ("ELF64 for x86-64 (Shared object)") [("f", 1), ("g", 2)] fiA fmA
        ⟨[]⟩).1.committed = []
    ∧ (mainRun ("ELF64 for x86-64 (Shared object)") [("g", 2)] fiA fmA ⟨[]⟩).2 = none
    ∧ (mainRun ("ELF64 for x86-64 (Shared object)") [("g", 2)] fiA fmA ⟨[]⟩).1.committed
        = [(2, false, [⟨"x", enumTinfo ("ENUM_E")⟩])] := by
  exact ⟨by rfl, by rfl, by rfl, by rfl⟩

/-! Helper lemmas about the per-parameter loop. -/

theorem arg_step_ptr (s : Session) (in_map : Bool) (fname : String) (arg : FArg)
    (h : arg.type.is_ptr = true) :
    arg_step s in_map fname arg = (s, Except.ok (arg, false)) := by
  unfold arg_step
  rw [if_pos h]

theorem arg_step_no_change {s : Session} {in_map : Bool} {fname : String}
    {arg : FArg} {s1 : Session} {a1 : FArg}
    (h : arg_step s in_map fname arg = (s1, Except.ok (a1, false))) :
    a1 = arg ∧ s1 = s := by
  unfold arg_step at h
  split at h
  next =>
    simp only [Prod.mk.injEq, Except.ok.injEq] at h
    exact ⟨h.2.1.symm, h.1.symm⟩
  next =>
    split at h
    next =>
      simp only [Prod.mk.injEq, Except.ok.injEq] at h
      exact absurd h.2.2 (by decide)
    next =>
      split at h
      next =>
        split at h
        next =>
          simp only [Prod.mk.injEq] at h
          exact absurd h.2 (fun hh => Except.noConfusion hh)
        next fp =>
          split at h
          next =>
            simp only [Prod.mk.injEq, Except.ok.injEq] at h
            exact ⟨h.2.1.symm, h.1.symm⟩
          next a0 =>
            split at h
            next =>
              simp only [Prod.mk.injEq, Except.ok.injEq] at h
              exact ⟨h.2.1.symm, h.1.symm⟩
            next eid =>
              split at h
              next =>
                simp only [Prod.mk.injEq] at h
                exact absurd h.2 (fun hh => Except.noConfusion hh)
              next =>
                simp only [Prod.mk.injEq, Except.ok.injEq] at h
                exact absurd h.2.2 (by decide)
      next =>
        simp only [Prod.mk.injEq, Except.ok.injEq] at h
        exact ⟨h.2.1.symm, h.1.symm⟩

theorem args_go_no_change (in_map : Bool) (fname : String) :
    ∀ (args done : List FArg) (s : Session) (ch : Bool) (s1 : Session)
      (out : List FArg),
    args_go in_map fname s args done ch = (s1, out, false, none) →
    out = done ++ args ∧ ch = false ∧ s1 = s := by
  intro args
  induction args with
  | nil =>
      intro done s ch s1 out h
      have h' : ((s, done, ch, none) : Session × List FArg × Bool × Option String)
          = (s1, out, false, none) := h
      simp only [Prod.mk.injEq] at h'
      exact ⟨h'.2.1.symm ▸ (List.append_nil done).symm, h'.2.2.1, h'.1.symm⟩
  | cons a t ih =>
      intro done s ch s1 out h
      simp only [args_go] at h
      rcases hstep : arg_step s in_map fname a with ⟨s2, r⟩
      rw [hstep] at h
      cases r with
      | error e =>
          have h' : ((s2, done ++ a :: t, ch, some e) :
              Session × List FArg × Bool × Option String) = (s1, out, false, none) := h
          simp only [Prod.mk.injEq] at h'
          exact absurd h'.2.2.2 (fun hh => Option.noConfusion hh)
      | ok p =>
          obtain ⟨a1, ch1⟩ := p
          have h' : args_go in_map fname s2 t (done ++ [a1]) (ch || ch1)
              = (s1, out, false, none) := h
          obtain ⟨hout, hch, hs⟩ := ih (done ++ [a1]) s2 (ch || ch1) s1 out h'
          have hch2 : ch = false ∧ ch1 = false := Bool.or_eq_false_iff.mp hch
          obtain ⟨ha1, hs2⟩ := arg_step_no_change (hch2.2 ▸ hstep)
          subst ha1 hs2 hs
          refine ⟨?_, hch2.1, rfl⟩
          rw [hout, List.append_assoc, List.singleton_append]

/-- Claim C7: a function none of whose parameters was retyped — the
per-parameter loop finishes with the `changed` flag still `False` — is not
committed: the loop body returns the state completely unchanged (no
`apply_tinfo` call, no session change) and the parameter list itself is
untouched. -/
theorem C7_no_commit_unchanged (st : St) (nm : String) (addr : Nat) (p : Bool)
    (args : List FArg) (s1 : Session) (args1 : List FArg)
    (h : args_go (fmContains st.session.fm nm) nm st.session args [] false
      = (s1, args1, false, none)) :
    processBody st nm addr (some (p, args)) = (st, none) ∧ args1 = args := by
  obtain ⟨hout, -, hs⟩ := args_go_no_change (fmContains st.session.fm nm) nm args []
    st.session false s1 args1 h
  constructor
  · subst hs
    simp only [processBody]
    rw [h]
    by_cases hemp : args.isEmpty = true
    · rw [if_pos hemp]
    · rw [if_neg hemp]
      rfl
  · simpa using hout

/-- Witness for C7: a function outside the database with a single pointer
parameter is processed without any commit. -/
theorem C7_no_commit_unchanged_wit :
    processBody stA ("zzz") 9 (some (false, [⟨"p", ptrTy⟩])) = (stA, none)
    ∧ ([⟨"p", ptrTy⟩] : List FArg) = [⟨"p", ptrTy⟩] :=
  C7_no_commit_unchanged stA ("zzz") 9 false [⟨"p", ptrTy⟩] stA.session
    [⟨"p", ptrTy⟩] (by rfl)

/-! Claim C6: pointer parameters are never retyped. -/

theorem args_go_frame (in_map : Bool) (fname : String) :
    ∀ (args done : List FArg) (s : Session) (ch : Bool),
    ∃ tl : List FArg,
      (args_go in_map fname s args done ch).2.1 = done ++ tl
      ∧ tl.length = args.length
      ∧ ∀ (i : Nat) (h1 : i < args.length) (h2 : i < tl.length),
          (args.get ⟨i, h1⟩).type.is_ptr = true →
          tl.get ⟨i, h2⟩ = args.get ⟨i, h1⟩ := by
  intro args
  induction args with
  | nil =>
      intro done s ch
      exact ⟨[], by simp [args_go], rfl, fun i h1 => absurd h1 (Nat.not_lt_zero i)⟩
  | cons a t ih =>
      intro done s ch
      rcases hstep : arg_step s in_map fname a with ⟨s2, r⟩
      cases r with
      | error e =>
          refine ⟨a :: t, ?_, rfl, ?_⟩
          · simp only [args_go]
            rw [hstep]
          · intro i h1 h2 _
            rfl
      | ok p =>
          obtain ⟨a1, ch1⟩ := p
          obtain ⟨tl', hout, hlen, hptr⟩ := ih (done ++ [a1]) s2 (ch || ch1)
          refine ⟨a1 :: tl', ?_, by simp [hlen], ?_⟩
          · simp only [args_go]
            rw [hstep]
            rw [hout, List.append_assoc, List.singleton_append]
          · intro i h1 h2 hp
            cases i with
            | zero =>
                have hpa : a.type.is_ptr = true := hp
                have heq : ((s2, Except.ok (a1, ch1)) :
                    Session × Except String (FArg × Bool)) = (s, Except.ok (a, false)) := by
                  rw [← hstep, arg_step_ptr s in_map fname a hpa]
                have h2' : (Except.ok (a1, ch1) : Except String (FArg × Bool))
                    = Except.ok (a, false) := congrArg Prod.snd heq
                injection h2' with h2'
                have ha1 : a1 = a := congrArg Prod.fst h2'
                exact ha1
            | succ j =>
                exact hptr j (Nat.lt_of_succ_lt_succ h1) (Nat.lt_of_succ_lt_succ h2) hp

theorem processBody_committed (st : St) (nm : String) (addr : Nat)
    (fiv : Option (Bool × List FArg)) :
    (processBody st nm addr fiv).1.committed = st.committed
    ∨ ∃ (pr : Bool) (args0 tl : List FArg),
        fiv = some (pr, args0)
        ∧ (processBody st nm addr fiv).1.committed = st.committed ++ [(addr, pr, tl)]
        ∧ tl.length = args0.length
        ∧ ∀ (i : Nat) (h1 : i < args0.length) (h2 : i < tl.length),
            (args0.get ⟨i, h1⟩).type.is_ptr = true →
            tl.get ⟨i, h2⟩ = args0.get ⟨i, h1⟩ := by
  cases fiv with
  | none => exact Or.inl rfl
  | some pargs =>
      obtain ⟨pr, args0⟩ := pargs
      simp only [processBody]
      by_cases hemp : args0.isEmpty = true
      · rw [if_pos hemp]
        exact Or.inl rfl
      · rw [if_neg hemp]
        rcases hgo : args_go (fmContains st.session.fm nm) nm st.session args0 [] false
          with ⟨s1, out, chg, err⟩
        cases err with
        | some e => exact Or.inl rfl
        | none =>
            cases chg with
            | false => exact Or.inl rfl
            | true =>
                obtain ⟨tl, hout, hlen, hptr⟩ :=
                  args_go_frame (fmContains st.session.fm nm) nm args0 [] st.session false
                rw [hgo] at hout
                have hout' : out = tl := by simpa using hout
                subst hout'
                exact Or.inr ⟨pr, args0, out, rfl, rfl, hlen, hptr⟩

theorem processOne_committed (fi : Nat → Option (Bool × List FArg)) (st : St)
    (nm : String) (addr : Nat) :
    (processOne fi st nm addr).1.committed = st.committed
    ∨ ∃ (pr : Bool) (args0 tl : List FArg),
        fi addr = some (pr, args0)
        ∧ (processOne fi st nm addr).1.committed = st.committed ++ [(addr, pr, tl)]
        ∧ tl.length = args0.length
        ∧ ∀ (i : Nat) (h1 : i < args0.length) (h2 : i < tl.length),
            (args0.get ⟨i, h1⟩).type.is_ptr = true →
            tl.get ⟨i, h2⟩ = args0.get ⟨i, h1⟩ := by
  unfold processOne
  by_cases hfc : fmContains st.session.fm (py_drop_last nm) = true
  · rw [if_pos hfc]
    rcases hga : dictGet st.library_addr nm with _ | a0
    · exact Or.inl rfl
    · exact processBody_committed
        { st with library_addr := dictSet st.library_addr (py_drop_last nm) a0 }
        (py_drop_last nm) addr (fi addr)
  · rw [if_neg hfc]
    exact processBody_committed st nm addr (fi addr)

theorem processOne_frame (fi : Nat → Option (Bool × List FArg)) (st : St)
    (nm : String) (addr : Nat) (h : ∀ c ∈ st.committed, ptrFrame fi c) :
    ∀ c ∈ (processOne fi st nm addr).1.committed, ptrFrame fi c := by
  rcases processOne_committed fi st nm addr with hsame |
    ⟨pr, args0, tl, hfi, hcm, hlen, hptr⟩
  · intro c hc
    rw [hsame] at hc
    exact h c hc
  · intro c hc
    rw [hcm] at hc
    rcases List.mem_append.mp hc with hc | hc
    · exact h c hc
    · have hceq : c = (addr, pr, tl) := by simpa using hc
      subst hceq
      exact ⟨args0, hfi, hlen, hptr⟩

theorem mainLoop_frame (fi : Nat → Option (Bool × List FArg)) :
    ∀ (l : List (String × Nat)) (st : St),
    (∀ c ∈ st.committed, ptrFrame fi c) →
    ∀ c ∈ (mainLoop fi st l).1.committed, ptrFrame fi c := by
  intro l
  induction l with
  | nil =>
      intro st h
      exact h
  | cons x t ih =>
      intro st h
      simp only [mainLoop]
      rcases hp : processOne fi st x.1 x.2 with ⟨st1, err⟩
      have h1 := processOne_frame fi st x.1 x.2 h
      rw [hp] at h1
      cases err with
      | some e => exact h1
      | none => exact ih st1 h1

/-- Claim C6: in any run of `main`, every committed function type keeps
every parameter whose resolved type is a pointer type completely unchanged
(same name and type as in the host's type information): pointer parameters
are never retyped as enums or booleans. -/
theorem C6_ptr_frame (file_type_name : String) (imports : List (String × Nat))
    (funcinfo : Nat → Option (Bool × List FArg)) (fm : FunctionMap) (db : TypeDB) :
    ∀ c ∈ (mainRun file_type_name imports funcinfo fm db).1.committed,
      ptrFrame funcinfo c := by
  unfold mainRun
  rcases hplat : strContains file_type_name ("ELF") with _ | _
  · intro c hc
    exact absurd (show c ∈ ([] : List (Nat × Bool × List FArg)) from hc)
      (List.not_mem_nil c)
  · exact mainLoop_frame funcinfo imports ⟨⟨db, fm, []⟩, imports, []⟩
      (fun c hc => absurd hc (List.not_mem_nil c))

/-- Witness for C6: a run that retypes a `BOOL` parameter commits the
function with its pointer parameter untouched. -/
theorem C6_ptr_frame_wit :
    ptrFrame fiC (5, false, [⟨"p", ptrTy⟩, ⟨"b", MACRO_BOOL⟩]) := by
  apply C6_ptr_frame ("ELF32 for Intel 386") [("h", 5)] fiC ⟨[], []⟩ ⟨[]⟩
  have hcm : (mainRun ("ELF32 for Intel 386") [("h", 5)] fiC ⟨[], []⟩ ⟨[]⟩).1.committed
      = [(5, false, [⟨"p", ptrTy⟩, ⟨"b", MACRO_BOOL⟩])] := rfl
  rw [hcm]
  exact List.mem_singleton_self _

/-! Claim C8: the one-character name-stripping alias step. -/

/-- Claim C8 (amended): when the import name's one-character-stripped form
exists in the function database, the loop iteration re-points the address
mapping to the stripped name and continues exactly as the stripped name
would be processed — provided the stripped name's own one-character-stripped
form is not in the database, since the stripping is applied only once and
not recursively. -/
theorem C8_strip_alias (fi : Nat → Option (Bool × List FArg)) (st : St)
    (nm : String) (addr a0 : Nat)
    (h1 : fmContains st.session.fm (py_drop_last nm) = true)
    (h2 : fmContains st.session.fm (py_drop_last (py_drop_last nm)) = false)
    (h3 : dictGet st.library_addr nm = some a0) :
    processOne fi st nm addr
      = processOne fi
          { st with library_addr := dictSet st.library_addr (py_drop_last nm) a0 }
          (py_drop_last nm) addr := by
  have hn2 : ¬(fmContains st.session.fm (py_drop_last (py_drop_last nm)) = true) := by
    rw [h2]
    simp
  unfold processOne
  dsimp only
  rw [if_pos h1, if_neg hn2, h3]

/-- Witness for C8: with `ab` in the database (and `a` absent), processing
the import `abc` equals processing `ab` from the re-pointed state. -/
theorem C8_strip_alias_wit :
    processOne fiB stD ("abc") 7
      = processOne fiB
          { stD with library_addr := dictSet stD.library_addr (py_drop_last ("abc")) 7 }
          (py_drop_last ("abc")) 7 :=
  C8_strip_alias fiB stD ("abc") 7 7 (by decide) (by decide) (by rfl)

/-- Counterexample to C8 as stated: the claim promises behaviour exactly as
if the function were named by the stripped name, but stripping is not
recursive.  With both `ab` and `a` in the database, the import `abc` is
processed as `ab` (enum `E1`), while an import actually named `ab` is
stripped again and processed as `a` (enum `E2`): the committed types
differ. -/
theorem C8_strip_alias_cex :
    (processOne fiB stB ("abc") 7).1.committed
        = [(7, false, [⟨"x", enumTinfo ("ENUM_E1")⟩])]
    ∧ (processOne fiB stB ("ab") 7).1.committed
        = [(7, false, [⟨"x", enumTinfo ("ENUM_E2")⟩])]
    ∧ enumTinfo ("ENUM_E1") ≠ enumTinfo ("ENUM_E2") := by
  exact ⟨by rfl, by rfl, by decide⟩

end AutoEnum
